import Mathlib

/-!
# Verification of the `emojis` library core

A shallow embedding of `src/src/lib.rs` (the `emojis` crate core) together
with spec-modelled definitions for the parts of the repository whose code is
not under `src/` (the generated catalog data, skin tones, groups).

In the Rust source, `Emoji` is a `#[repr(transparent)]` wrapper around `str`,
and every query walks the static table `generated::EMOJIS`.  Here the table is
passed explicitly as a `List Emoji` argument, and partial operations (Rust
`unwrap`, i.e. panic) are modelled with `Option`.
-/

namespace Emojis

/-- `pub struct Emoji(str)` (lib.rs:9-11): a transparent wrapper around the
backing Unicode scalar sequence.  The derived `PartialEq`/`Eq` compare the
inner string, which is exactly the structure equality of this one-field
structure. -/
structure Emoji where
  seq : String
deriving DecidableEq, Repr

namespace Emoji

/-- `Emoji::as_str` (lib.rs:56-59): returns a reference to the underlying
string. -/
def as_str (e : Emoji) : String :=
  e.seq

end Emoji

/-- `lookup` (lib.rs:122-124):
`generated::EMOJIS.iter().copied().find(|e| e == emoji)`, where
`PartialEq<str> for &Emoji` (lib.rs:66-70) compares `self.as_str()` with the
query string exactly.  `find` returns the first matching element, or `None`. -/
def lookup : List Emoji → String → Option Emoji
  | [], _ => none
  | e :: rest, s => if e.as_str = s then some e else lookup rest s

/-- `iter` (lib.rs:108-110): `generated::EMOJIS.iter()`, a slice iterator over
the static table; as a pure value it is the catalog sequence itself.  Stated
generically so that the spec-modelled catalogs below can reuse it. -/
def iter {α : Type} (EMOJIS : List α) : List α :=
  EMOJIS

/-- `Emoji::id` (lib.rs:61-63):
`generated::EMOJIS.iter().position(|&e| e == self).unwrap()`.
The `position` search is modelled exactly (index of the first catalog entry
equal to `self`); the `unwrap` panic on a missing entry is modelled as
`none`. -/
def idOf : List Emoji → Emoji → Option Nat
  | [], _ => none
  | x :: rest, e => if x = e then some 0 else (idOf rest e).map (· + 1)

/-- `Ord for Emoji` (lib.rs:78-82): `cmp(&self.id(), &other.id())` — compare
the two catalog positions.  A panic inside either `id()` call surfaces as
`none`. -/
def cmp (c : List Emoji) (a b : Emoji) : Option Ordering :=
  match idOf c a, idOf c b with
  | some i, some j => some (compare i j)
  | _, _ => none

/-- Rust `<` on `Emoji`: `PartialOrd::lt` via
`partial_cmp(&self, other) = Some(Ord::cmp(self, other))` (lib.rs:72-76),
testing the result for `Ordering::Less`. -/
def lt (c : List Emoji) (a b : Emoji) : Option Bool :=
  (cmp c a b).map (fun o => o == Ordering.lt)

/-! ## Basic lemmas about `lookup` and `idOf` -/

theorem lookup_eq_some {c : List Emoji} {s : String} {e : Emoji}
    (h : lookup c s = some e) : e.as_str = s ∧ e ∈ c := by
  induction c with
  | nil => simp [lookup] at h
  | cons x rest ih =>
    by_cases hx : x.as_str = s
    · simp [lookup, hx] at h
      exact ⟨h ▸ hx, by simp [h]⟩
    · simp [lookup, hx] at h
      rcases ih h with ⟨h1, h2⟩
      exact ⟨h1, List.mem_cons_of_mem _ h2⟩

theorem lookup_of_mem {c : List Emoji} {e : Emoji} (h : e ∈ c) :
    ∃ r, lookup c e.as_str = some r ∧ r.as_str = e.as_str := by
  induction c with
  | nil => simp at h
  | cons x rest ih =>
    by_cases hx : x.as_str = e.as_str
    · exact ⟨x, by simp [lookup, hx], hx⟩
    · have hmem : e ∈ rest := by
        rcases List.mem_cons.mp h with h' | h'
        · exact absurd (h' ▸ rfl) hx
        · exact h'
      rcases ih hmem with ⟨r, hr1, hr2⟩
      exact ⟨r, by simp [lookup, hx, hr1], hr2⟩

theorem lookup_of_mem_nodup {c : List Emoji} {e : Emoji}
    (hnd : (c.map Emoji.as_str).Nodup) (h : e ∈ c) :
    lookup c e.as_str = some e := by
  induction c with
  | nil => simp at h
  | cons x rest ih =>
    simp only [List.map_cons, List.nodup_cons] at hnd
    rcases List.mem_cons.mp h with h' | h'
    · subst h'
      simp [lookup]
    · have hx : x.as_str ≠ e.as_str := by
        intro hcontra
        exact hnd.1 (hcontra ▸ List.mem_map_of_mem Emoji.as_str h')
      simp [lookup, hx, ih hnd.2 h']

theorem idOf_isSome_of_mem {c : List Emoji} {e : Emoji} (h : e ∈ c) :
    ∃ i, idOf c e = some i := by
  induction c with
  | nil => simp at h
  | cons x rest ih =>
    by_cases hx : x = e
    · exact ⟨0, by simp [idOf, hx]⟩
    · have hmem : e ∈ rest := by
        rcases List.mem_cons.mp h with h' | h'
        · exact absurd h'.symm hx
        · exact h'
      rcases ih hmem with ⟨i, hi⟩
      exact ⟨i + 1, by simp [idOf, hx, hi]⟩

theorem idOf_eq_none_of_not_mem {c : List Emoji} {e : Emoji} (h : e ∉ c) :
    idOf c e = none := by
  induction c with
  | nil => simp [idOf]
  | cons x rest ih =>
    have hx : x ≠ e := fun hc => h (by simp [hc])
    have hrest : e ∉ rest := fun hc => h (List.mem_cons_of_mem _ hc)
    simp [idOf, hx, ih hrest]

theorem idOf_inj {c : List Emoji} {a b : Emoji} {i : Nat}
    (ha : idOf c a = some i) (hb : idOf c b = some i) : a = b := by
  induction c generalizing i with
  | nil => simp [idOf] at ha
  | cons x rest ih =>
    by_cases hxa : x = a
    · by_cases hxb : x = b
      · exact hxa ▸ hxb
      · simp [idOf, hxa] at ha
        simp [idOf, hxb] at hb
        rcases hb with ⟨j, _, hj⟩
        omega
    · by_cases hxb : x = b
      · simp [idOf, hxa] at ha
        simp [idOf, hxb] at hb
        rcases ha with ⟨j, _, hj⟩
        omega
      · simp [idOf, hxa] at ha
        simp [idOf, hxb] at hb
        rcases ha with ⟨j, hja, hj⟩
        rcases hb with ⟨k, hkb, hk⟩
        have : j = k := by omega
        exact ih hja (this ▸ hkb)

/-! ## Claims C1, C3, C4, C5, C8, C10 -/

/-- Claim C1 (counter-evidence): the spec requires a trailing U+FE0F variation
selector to be insignificant for `lookup`, but the source's `lookup`
(lib.rs:122-124) matches the query against each catalog sequence with plain
string equality (lib.rs:66-70).  With the canonical catalog entry
`"☹️"` (U+2639 U+FE0F), the bare query `"☹"` (U+2639) returns `none` while the
exact query returns the entry; with the bare form as the entry, the
selector-carrying query returns `none`.  So the two queries never resolve to
the same non-null entity. -/
theorem lookup_vs16_exact_mismatch :
    lookup [Emoji.mk "☹️"] "☹" = none
    ∧ lookup [Emoji.mk "☹️"] "☹️" = some (Emoji.mk "☹️")
    ∧ lookup [Emoji.mk "☹"] "☹️" = none := by
  refine ⟨?_, ?_, ?_⟩ <;> decide

/-- Claim C3: for every catalog and every query string whose sequence is
absent from the catalog, `lookup` returns `none`.  (The embedding of `lookup`
is a total function into `Option`, mirroring that the Rust `find` cannot
panic.) -/
theorem lookup_absent (c : List Emoji) (s : String)
    (h : ∀ e ∈ c, e.as_str ≠ s) : lookup c s = none := by
  induction c with
  | nil => simp [lookup]
  | cons x rest ih =>
    have hx : x.as_str ≠ s := h x (by simp)
    exact by simp [lookup, hx, ih (fun e he => h e (List.mem_cons_of_mem _ he))]

/-- Witness for C3 at a concrete catalog and absent query. -/
theorem lookup_absent_witness :
    lookup [Emoji.mk "🚀"] "ʕ1" = none :=
  lookup_absent [Emoji.mk "🚀"] "ʕ1" (by decide)

/-- Claim C4: `iter` yields exactly the catalog, element for element, in
catalog order (a finite list), and it is deterministic and restartable: any
two invocations produce identical sequences. -/
theorem iter_deterministic (c : List Emoji) :
    iter c = c ∧ iter c = iter c ∧ (iter c).length = c.length :=
  ⟨rfl, rfl, rfl⟩

/-- Claim C5: `as_str` returns exactly the backing sequence, and two `Emoji`
values are equal iff their backing sequences are identical; distinct
sequences never compare equal. -/
theorem as_str_exact_and_eq_iff :
    (∀ s : String, (Emoji.mk s).as_str = s)
    ∧ (∀ a b : Emoji, a = b ↔ a.as_str = b.as_str) := by
  refine ⟨fun s => rfl, fun a b => ⟨fun h => h ▸ rfl, fun h => ?_⟩⟩
  cases a
  cases b
  simpa [Emoji.as_str] using h

/-- Witness for C5 at concrete emoji values. -/
theorem as_str_exact_and_eq_iff_witness :
    (Emoji.mk "😀").as_str = "😀"
    ∧ (Emoji.mk "😀" = Emoji.mk "🚀"
        ↔ (Emoji.mk "😀").as_str = (Emoji.mk "🚀").as_str) :=
  ⟨as_str_exact_and_eq_iff.1 "😀",
   as_str_exact_and_eq_iff.2 (Emoji.mk "😀") (Emoji.mk "🚀")⟩

/-- Claim C8: whenever `lookup` succeeds, the returned emoji's backing
sequence is byte-for-byte the query string — no normalization of any kind. -/
theorem lookup_exact_match (c : List Emoji) (s : String) (e : Emoji)
    (h : lookup c s = some e) : e.as_str = s :=
  (lookup_eq_some h).1

/-- Witness for C8 at a concrete catalog and query. -/
theorem lookup_exact_match_witness :
    (Emoji.mk "😀").as_str = "😀" :=
  lookup_exact_match [Emoji.mk "😀"] "😀" (Emoji.mk "😀") (by decide)

/-- Claim C10: for every catalog member `e`, `lookup e.as_str` succeeds and
returns an entry with the same sequence (the first such entry); and when the
catalog's sequences are pairwise distinct, `lookup (e.as_str) = some e`
exactly — `lookup` is a left inverse of `as_str` over the catalog. -/
theorem lookup_left_inverse (c : List Emoji) (e : Emoji) (h : e ∈ c) :
    (∃ r, lookup c e.as_str = some r ∧ r.as_str = e.as_str)
    ∧ ((c.map Emoji.as_str).Nodup → lookup c e.as_str = some e) :=
  ⟨lookup_of_mem h, fun hnd => lookup_of_mem_nodup hnd h⟩

/-- Witness for C10 at a concrete two-entry catalog. -/
theorem lookup_left_inverse_witness :
    (∃ r, lookup [Emoji.mk "🚀", Emoji.mk "😀"] (Emoji.mk "😀").as_str
          = some r ∧ r.as_str = (Emoji.mk "😀").as_str)
    ∧ (([Emoji.mk "🚀", Emoji.mk "😀"].map Emoji.as_str).Nodup →
        lookup [Emoji.mk "🚀", Emoji.mk "😀"] (Emoji.mk "😀").as_str
          = some (Emoji.mk "😀")) :=
  lookup_left_inverse [Emoji.mk "🚀", Emoji.mk "😀"] (Emoji.mk "😀")
    (by decide)

theorem as_str_injective : Function.Injective Emoji.as_str := by
  intro a b h
  cases a
  cases b
  simpa [Emoji.as_str] using h

theorem mem_map_as_str {a : Emoji} {c : List Emoji} :
    a.as_str ∈ c.map Emoji.as_str ↔ a ∈ c :=
  List.mem_map_of_injective as_str_injective

theorem beq_lt_iff (o : Ordering) :
    (o == Ordering.lt) = true ↔ o = Ordering.lt := by
  cases o <;> decide

/-! ## Claims C2 and C9 -/

/-- Claim C2: on catalog members, Rust `<` (via `Ord for Emoji`) holds exactly
when the first operand's catalog index is smaller, and the comparison is a
total order: comparing an emoji with itself yields `Equal`, two members
comparing `Equal` are the same emoji (antisymmetry), and `<` is transitive.
The comparison reads only `idOf` (catalog position), never the text. -/
theorem emoji_order (c : List Emoji) :
    ∀ a ∈ c, ∀ b ∈ c, ∀ d ∈ c,
      (∀ i j, idOf c a = some i → idOf c b = some j →
        (lt c a b = some true ↔ i < j))
      ∧ cmp c a a = some Ordering.eq
      ∧ (cmp c a b = some Ordering.eq → a = b)
      ∧ (lt c a b = some true → lt c b d = some true →
          lt c a d = some true) := by
  intro a ha b hb d hd
  obtain ⟨i, hi⟩ := idOf_isSome_of_mem ha
  obtain ⟨j, hj⟩ := idOf_isSome_of_mem hb
  obtain ⟨k, hk⟩ := idOf_isSome_of_mem hd
  refine ⟨?_, ?_, ?_, ?_⟩
  · intro i' j' hi' hj'
    rw [hi] at hi'
    rw [hj] at hj'
    cases hi'
    cases hj'
    simp [lt, cmp, hi, hj, beq_lt_iff, Nat.compare_eq_lt]
  · simp [cmp, hi, Nat.compare_eq_eq]
  · intro h
    simp only [cmp, hi, hj] at h
    have hij : i = j := Nat.compare_eq_eq.mp (by injection h)
    exact idOf_inj hi (hij ▸ hj)
  · intro h1 h2
    simp only [lt, cmp, hi, hj, hk, Option.map_some', Option.some_inj,
      beq_lt_iff] at h1 h2 ⊢
    have hij : i < j := Nat.compare_eq_lt.mp h1
    have hjk : j < k := Nat.compare_eq_lt.mp h2
    exact Nat.compare_eq_lt.mpr (Nat.lt_trans hij hjk)

/-- Witness for C2 at the concrete two-entry catalog. -/
theorem emoji_order_witness :
    (∀ i j, idOf [Emoji.mk "😀", Emoji.mk "😉"] (Emoji.mk "😀") = some i →
        idOf [Emoji.mk "😀", Emoji.mk "😉"] (Emoji.mk "😉") = some j →
        (lt [Emoji.mk "😀", Emoji.mk "😉"] (Emoji.mk "😀") (Emoji.mk "😉")
          = some true ↔ i < j))
    ∧ cmp [Emoji.mk "😀", Emoji.mk "😉"] (Emoji.mk "😀") (Emoji.mk "😀")
        = some Ordering.eq
    ∧ (cmp [Emoji.mk "😀", Emoji.mk "😉"] (Emoji.mk "😀") (Emoji.mk "😉")
        = some Ordering.eq → Emoji.mk "😀" = Emoji.mk "😉")
    ∧ (lt [Emoji.mk "😀", Emoji.mk "😉"] (Emoji.mk "😀") (Emoji.mk "😉")
        = some true →
       lt [Emoji.mk "😀", Emoji.mk "😉"] (Emoji.mk "😉") (Emoji.mk "😉")
        = some true →
       lt [Emoji.mk "😀", Emoji.mk "😉"] (Emoji.mk "😀") (Emoji.mk "😉")
        = some true) :=
  emoji_order [Emoji.mk "😀", Emoji.mk "😉"]
    (Emoji.mk "😀") (by decide) (Emoji.mk "😉") (by decide)
    (Emoji.mk "😉") (by decide)

/-- Claim C9: when both operands' sequences occur in the catalog, the
`position` search inside `id()` succeeds, so the `unwrap` panic branch of the
comparison is unreachable (`cmp` returns `some`); for an `Emoji` wrapping a
string absent from the catalog, the comparison hits the panic branch
(modelled as `none`). -/
theorem cmp_panic_free (c : List Emoji) (a b : Emoji) :
    (a.as_str ∈ c.map Emoji.as_str → b.as_str ∈ c.map Emoji.as_str →
      (cmp c a b).isSome)
    ∧ (a.as_str ∉ c.map Emoji.as_str → cmp c a b = none) := by
  constructor
  · intro ha hb
    obtain ⟨i, hi⟩ := idOf_isSome_of_mem (mem_map_as_str.mp ha)
    obtain ⟨j, hj⟩ := idOf_isSome_of_mem (mem_map_as_str.mp hb)
    simp [cmp, hi, hj]
  · intro ha
    have hnone : idOf c a = none :=
      idOf_eq_none_of_not_mem (fun hm => ha (mem_map_as_str.mpr hm))
    simp [cmp, hnone]

/-- Witness for C9: in-catalog operands compare successfully; an arbitrary
out-of-catalog wrapper makes the comparison panic (`none`). -/
theorem cmp_panic_free_witness :
    (cmp [Emoji.mk "😀"] (Emoji.mk "😀") (Emoji.mk "😀")).isSome
    ∧ cmp [Emoji.mk "😀"] (Emoji.mk "ʕ2") (Emoji.mk "😀") = none :=
  ⟨(cmp_panic_free [Emoji.mk "😀"] (Emoji.mk "😀") (Emoji.mk "😀")).1
      (by decide) (by decide),
   (cmp_panic_free [Emoji.mk "😀"] (Emoji.mk "ʕ2") (Emoji.mk "😀")).2
      (by decide)⟩

/-! ## Skin tones (claim C6)

The skin-tone API (`skin_tone`, `skin_tones`, `with_skin_tone`) belongs to
this repository (it is exercised by `tests/smoke.rs`) but its code is not
under `src/`; the definitions below are modelled from the spec. -/

/-- Modelled from the spec: `SkinTone` is "a closed, ordered enumeration of
the six Unicode skin-tone modifiers (including Default = unmodified)".  The
source implementing it is not under `src/`. -/
inductive SkinTone where
  | Default
  | Light
  | MediumLight
  | Medium
  | MediumDark
  | Dark
deriving DecidableEq, Repr

/-- Modelled from the spec: the fixed order Default, Light, MediumLight,
Medium, MediumDark, Dark in which a skin-tone family is produced. -/
def SkinTone.all : List SkinTone :=
  [.Default, .Light, .MediumLight, .Medium, .MediumDark, .Dark]

/-- Modelled from the spec: a catalog entry as the skin-tone queries see it —
its sequence together with the stored `skin_tone` tag (`none` means the emoji
has no skin-tone concept at all). -/
structure TonedEmoji where
  seq : String
  tone : Option SkinTone
deriving DecidableEq, Repr

/-- Modelled from the spec: `skin_tone(e)` "reads the stored tag". -/
def skin_tone (e : TonedEmoji) : Option SkinTone :=
  e.tone

/-- Modelled from the spec: the derived family relation — "a precomputed
index (base identity → ordered list of 6 variant indices) built once when the
Catalog loads"; resolving an emoji to its family finds the family containing
it. -/
def findFamily (fams : List (List TonedEmoji)) (e : TonedEmoji) :
    Option (List TonedEmoji) :=
  fams.find? (fun f => f.contains e)

/-- Modelled from the spec: `skin_tones(e)` is `none` if `e` is not
skin-tone-capable, otherwise the family in the fixed tone order. -/
def skin_tones (fams : List (List TonedEmoji)) (e : TonedEmoji) :
    Option (List TonedEmoji) :=
  findFamily fams e

/-- Modelled from the spec: `with_skin_tone(e, target)` "resolves to the
sibling tagged `target` within e's family, or `None` if `e` has no
family". -/
def with_skin_tone (fams : List (List TonedEmoji)) (e : TonedEmoji)
    (t : SkinTone) : Option TonedEmoji :=
  (findFamily fams e).bind (fun f => f.find? (fun x => x.tone == some t))

theorem find_tone {l : List TonedEmoji} {ts : List SkinTone}
    (h : l.map TonedEmoji.tone = ts.map some) {t : SkinTone} (ht : t ∈ ts) :
    ∃ x, l.find? (fun x => x.tone == some t) = some x
      ∧ x.tone = some t := by
  induction l generalizing ts with
  | nil =>
    cases ts with
    | nil => simp at ht
    | cons t0 ts' => simp at h
  | cons a l ih =>
    cases ts with
    | nil => simp at h
    | cons t0 ts' =>
      simp only [List.map_cons, List.cons.injEq] at h
      obtain ⟨ha, hrest⟩ := h
      by_cases hx : a.tone = some t
      · exact ⟨a, by rw [List.find?_cons_of_pos _ (by simp [hx])], hx⟩
      · have ht' : t ∈ ts' := by
          rcases List.mem_cons.mp ht with h' | h'
          · exact absurd (h' ▸ ha) hx
          · exact h'
        obtain ⟨x, hfind, hxt⟩ := ih hrest ht'
        exact ⟨x, by rw [List.find?_cons_of_neg _ (by simp [hx]), hfind], hxt⟩

/-- Claim C6: for a skin-tone-capable emoji `e` (a member of a family whose
tags are, per the spec's catalog invariant, exactly Default, Light,
MediumLight, Medium, MediumDark, Dark in order, and whose members all resolve
to that family), `skin_tones e` yields exactly the 6 family members with
those tags in that order; `with_skin_tone e t` has `skin_tone = some t` for
every tone `t`; and `with_skin_tone e Default` is the family's Default
(first) member, for every member `e` of the family. -/
theorem skin_tone_round_trip (fams : List (List TonedEmoji))
    (fam : List TonedEmoji)
    (hfam : fam.map TonedEmoji.tone = SkinTone.all.map some)
    (hres : ∀ e ∈ fam, findFamily fams e = some fam) :
    ∀ e ∈ fam,
      skin_tones fams e = some fam
      ∧ fam.length = 6
      ∧ fam.map skin_tone = SkinTone.all.map some
      ∧ (∀ t : SkinTone, ∃ x, with_skin_tone fams e t = some x
          ∧ skin_tone x = some t)
      ∧ (∀ d, fam.head? = some d →
          with_skin_tone fams e SkinTone.Default = some d) := by
  intro e he
  have hlen : fam.length = 6 := by
    have := congrArg List.length hfam
    simpa [SkinTone.all] using this
  refine ⟨hres e he, hlen, hfam, ?_, ?_⟩
  · intro t
    have ht : t ∈ SkinTone.all := by cases t <;> simp [SkinTone.all]
    obtain ⟨x, hfind, hxt⟩ := find_tone hfam ht
    exact ⟨x, by simp [with_skin_tone, hres e he, hfind], hxt⟩
  · intro d hd
    cases fam with
    | nil => simp at hd
    | cons e0 rest =>
      have hd0 : e0 = d := by simpa using hd
      have h0 : e0.tone = some SkinTone.Default := by
        simp only [SkinTone.all, List.map_cons, List.cons.injEq] at hfam
        exact hfam.1
      have hfind : (e0 :: rest).find?
          (fun x => x.tone == some SkinTone.Default) = some e0 :=
        List.find?_cons_of_pos _ (by simp [h0])
      rw [with_skin_tone, hres e he, Option.some_bind, hfind, hd0]

/-- Witness for C6 at a concrete six-member family. -/
theorem skin_tone_round_trip_witness :
    skin_tones
        [[TonedEmoji.mk "👍" (some .Default), TonedEmoji.mk "👍🏻" (some .Light),
          TonedEmoji.mk "👍🏼" (some .MediumLight),
          TonedEmoji.mk "👍🏽" (some .Medium),
          TonedEmoji.mk "👍🏾" (some .MediumDark),
          TonedEmoji.mk "👍🏿" (some .Dark)]]
        (TonedEmoji.mk "👍🏽" (some .Medium))
      = some [TonedEmoji.mk "👍" (some .Default),
          TonedEmoji.mk "👍🏻" (some .Light),
          TonedEmoji.mk "👍🏼" (some .MediumLight),
          TonedEmoji.mk "👍🏽" (some .Medium),
          TonedEmoji.mk "👍🏾" (some .MediumDark),
          TonedEmoji.mk "👍🏿" (some .Dark)]
    ∧ [TonedEmoji.mk "👍" (some .Default), TonedEmoji.mk "👍🏻" (some .Light),
        TonedEmoji.mk "👍🏼" (some .MediumLight),
        TonedEmoji.mk "👍🏽" (some .Medium),
        TonedEmoji.mk "👍🏾" (some .MediumDark),
        TonedEmoji.mk "👍🏿" (some .Dark)].length = 6
    ∧ [TonedEmoji.mk "👍" (some .Default), TonedEmoji.mk "👍🏻" (some .Light),
        TonedEmoji.mk "👍🏼" (some .MediumLight),
        TonedEmoji.mk "👍🏽" (some .Medium),
        TonedEmoji.mk "👍🏾" (some .MediumDark),
        TonedEmoji.mk "👍🏿" (some .Dark)].map skin_tone
        = SkinTone.all.map some
    ∧ (∀ t : SkinTone, ∃ x,
        with_skin_tone
            [[TonedEmoji.mk "👍" (some .Default),
              TonedEmoji.mk "👍🏻" (some .Light),
              TonedEmoji.mk "👍🏼" (some .MediumLight),
              TonedEmoji.mk "👍🏽" (some .Medium),
              TonedEmoji.mk "👍🏾" (some .MediumDark),
              TonedEmoji.mk "👍🏿" (some .Dark)]]
            (TonedEmoji.mk "👍🏽" (some .Medium)) t = some x
          ∧ skin_tone x = some t)
    ∧ (∀ d, [TonedEmoji.mk "👍" (some .Default),
          TonedEmoji.mk "👍🏻" (some .Light),
          TonedEmoji.mk "👍🏼" (some .MediumLight),
          TonedEmoji.mk "👍🏽" (some .Medium),
          TonedEmoji.mk "👍🏾" (some .MediumDark),
          TonedEmoji.mk "👍🏿" (some .Dark)].head? = some d →
        with_skin_tone
            [[TonedEmoji.mk "👍" (some .Default),
              TonedEmoji.mk "👍🏻" (some .Light),
              TonedEmoji.mk "👍🏼" (some .MediumLight),
              TonedEmoji.mk "👍🏽" (some .Medium),
              TonedEmoji.mk "👍🏾" (some .MediumDark),
              TonedEmoji.mk "👍🏿" (some .Dark)]]
            (TonedEmoji.mk "👍🏽" (some .Medium)) SkinTone.Default
          = some d) :=
  skin_tone_round_trip
    [[TonedEmoji.mk "👍" (some .Default), TonedEmoji.mk "👍🏻" (some .Light),
      TonedEmoji.mk "👍🏼" (some .MediumLight),
      TonedEmoji.mk "👍🏽" (some .Medium),
      TonedEmoji.mk "👍🏾" (some .MediumDark),
      TonedEmoji.mk "👍🏿" (some .Dark)]]
    [TonedEmoji.mk "👍" (some .Default), TonedEmoji.mk "👍🏻" (some .Light),
      TonedEmoji.mk "👍🏼" (some .MediumLight),
      TonedEmoji.mk "👍🏽" (some .Medium),
      TonedEmoji.mk "👍🏾" (some .MediumDark),
      TonedEmoji.mk "👍🏿" (some .Dark)]
    (by decide) (by decide)
    (TonedEmoji.mk "👍🏽" (some .Medium)) (by decide)

/-! ## Groups (claim C7)

The `Group` API is exercised by `tests/smoke.rs` but its code is not under
`src/`; the definitions below are modelled from the spec. -/

/-- Modelled from the spec: `Group` is "a closed, ordered enumeration of
emoji categories (e.g. Smileys & Emotion, Animals & Nature, …) matching
Unicode's official grouping".  The source implementing it is not under
`src/`. -/
inductive Group where
  | SmileysAndEmotion
  | PeopleAndBody
  | AnimalsAndNature
  | FoodAndDrink
  | TravelAndPlaces
  | Activities
  | Objects
  | Symbols
  | Flags
deriving DecidableEq, Repr

/-- Modelled from the spec: `Group::iter()` — the fixed category set in the
catalog's top-level definition order. -/
def Group.list : List Group :=
  [.SmileysAndEmotion, .PeopleAndBody, .AnimalsAndNature, .FoodAndDrink,
   .TravelAndPlaces, .Activities, .Objects, .Symbols, .Flags]

/-- Position of a group in the fixed top-level order. -/
def Group.idx : Group → Nat
  | .SmileysAndEmotion => 0
  | .PeopleAndBody => 1
  | .AnimalsAndNature => 2
  | .FoodAndDrink => 3
  | .TravelAndPlaces => 4
  | .Activities => 5
  | .Objects => 6
  | .Symbols => 7
  | .Flags => 8

/-- Modelled from the spec: a catalog entry as the group queries see it — its
sequence together with its category membership. -/
structure GroupedEmoji where
  seq : String
  group : Group
deriving DecidableEq, Repr

/-- Modelled from the spec: `group.emojis()` — "lazy sequence of every
catalog Emoji whose group equals this group, in catalog order". -/
def Group.emojis (c : List GroupedEmoji) (g : Group) : List GroupedEmoji :=
  c.filter (fun e => e.group == g)

/-- Modelled from the spec: flattening `Group::iter().map(emojis)` — the
concatenation of every group's emoji sequence in `Group::iter()` order. -/
def groupConcat (c : List GroupedEmoji) : List GroupedEmoji :=
  (Group.list.map (Group.emojis c)).flatten

theorem Group.mem_list (g : Group) : g ∈ Group.list := by
  cases g <;> simp [Group.list]

theorem filter_group_eq_nil {xs : List GroupedEmoji} {k : Nat}
    (h : ∀ e ∈ xs, k ≤ e.group.idx) {g : Group} (hg : g.idx < k) :
    xs.filter (fun e => e.group == g) = [] := by
  rw [List.filter_eq_nil_iff]
  intro e he
  simp only [beq_iff_eq]
  intro hc
  have := h e he
  rw [hc] at this
  omega

theorem flatten_filter_cons {gs : List Group} {x : GroupedEmoji}
    {xs : List GroupedEmoji}
    (h1 : ∀ e ∈ xs, x.group.idx ≤ e.group.idx)
    (h2 : x.group ∈ gs)
    (h3 : gs.Pairwise (fun g g' => g.idx < g'.idx)) :
    (gs.map (fun g => (x :: xs).filter (fun e => e.group == g))).flatten
      = x :: (gs.map (fun g => xs.filter (fun e => e.group == g))).flatten := by
  induction gs with
  | nil => simp at h2
  | cons g gs' ih =>
    have h3' := List.pairwise_cons.mp h3
    rcases List.mem_cons.mp h2 with hg | hg
    · have hcons : (x :: xs).filter (fun e => e.group == g)
          = x :: xs.filter (fun e => e.group == g) :=
        List.filter_cons_of_pos (by simp [hg])
      have hrest : gs'.map (fun g' => (x :: xs).filter (fun e => e.group == g'))
          = gs'.map (fun g' => xs.filter (fun e => e.group == g')) := by
        apply List.map_congr_left
        intro g' hg'
        have hlt := h3'.1 g' hg'
        have hne : x.group ≠ g' := by
          intro hc
          have hgg : g = g' := hg.symm.trans hc
          rw [hgg] at hlt
          omega
        exact List.filter_cons_of_neg (by simp [hne])
      simp [hcons, hrest]
    · have hlt : g.idx < x.group.idx := h3'.1 x.group hg
      have hne : x.group ≠ g := by
        intro hc
        rw [hc] at hlt
        omega
      have hcons : (x :: xs).filter (fun e => e.group == g)
          = xs.filter (fun e => e.group == g) :=
        List.filter_cons_of_neg (by simp [hne])
      have hnil : xs.filter (fun e => e.group == g) = [] :=
        filter_group_eq_nil h1 hlt
      rw [List.map_cons, List.map_cons, List.flatten_cons, List.flatten_cons,
        hcons, hnil, List.nil_append, List.nil_append, ih hg h3'.2]

/-- Claim C7: when the catalog obeys the spec's ordering invariant (entries
appear grouped by category, categories in `Group::iter()` order — CLDR
order), concatenating `group.emojis()` over `Group::iter()` reproduces
`iter()` over the whole catalog exactly: same elements, same order, no gaps,
no duplicates. -/
theorem group_partition (c : List GroupedEmoji)
    (hc : c.Pairwise (fun a b => a.group.idx ≤ b.group.idx)) :
    groupConcat c = iter c := by
  induction c with
  | nil => simp [groupConcat, iter, Group.emojis]
  | cons x xs ih =>
    have h1 : ∀ e ∈ xs, x.group.idx ≤ e.group.idx :=
      (List.pairwise_cons.mp hc).1
    have hpl : Group.list.Pairwise (fun g g' => g.idx < g'.idx) := by
      decide
    have step := flatten_filter_cons h1 (Group.mem_list x.group) hpl
    calc groupConcat (x :: xs)
        = x :: groupConcat xs := step
      _ = x :: iter xs := by rw [ih (List.pairwise_cons.mp hc).2]
      _ = iter (x :: xs) := rfl

/-- Witness for C7 at a concrete grouped catalog. -/
theorem group_partition_witness :
    groupConcat
        [GroupedEmoji.mk "😀" .SmileysAndEmotion,
         GroupedEmoji.mk "🦊" .AnimalsAndNature,
         GroupedEmoji.mk "🚀" .TravelAndPlaces,
         GroupedEmoji.mk "🏁" .Flags]
      = iter
        [GroupedEmoji.mk "😀" .SmileysAndEmotion,
         GroupedEmoji.mk "🦊" .AnimalsAndNature,
         GroupedEmoji.mk "🚀" .TravelAndPlaces,
         GroupedEmoji.mk "🏁" .Flags] :=
  group_partition _ (by decide)

end Emojis
